import Mathlib

/-!
Verification development for the logo extraction and replacement pipeline
(src/extract_logos.py and src/replace_hard_feelings_logos.py).

Filenames are modelled as lists of characters (`Str`), directories as lists of
filenames in listing order, and each external subprocess invocation (crop,
resize, invert) as a success oracle keyed by the output filename.  Python
string/`pathlib` operations used by the code (`str.replace`, `Path.stem`,
`Path.glob`) are embedded as executable functions below.
-/

set_option maxRecDepth 8000

/-- A Python string, modelled as its list of characters. -/
abbrev Str := List Char

/-- Shorthand turning a Lean string literal into the `Str` model. -/
def strL (s : String) : Str := s.toList

/-- Is `c` anything other than a dot?  (Helper for `stem`.) -/
def notDot (c : Char) : Bool := !(c == '.')

/-- Python `pathlib.Path(s).stem`: the name with its last extension removed.
The last `'.'` and everything after it are dropped, unless the only dot is the
leading character (dotfile) or there is no dot at all.  (The trailing-dot edge
case `"a."` is not distinguished; every name in this pipeline ends in
`".png"`.) -/
def stem (s : Str) : Str :=
  if '.' ∈ s.drop 1 then (((s.reverse).dropWhile notDot).drop 1).reverse else s

/-- Python `str.replace(pat, rep)`: replace every non-overlapping occurrence of
`pat`, scanning left to right.  The extra fuel argument (instantiated with the
string length, an upper bound never exhausted because every step consumes at
least one character) makes the recursion structural. -/
def replaceAllAux (pat rep : Str) : Nat → Str → Str
  | _, [] => []
  | 0, s => s
  | fuel + 1, c :: rest =>
    if pat.isPrefixOf (c :: rest) then
      rep ++ replaceAllAux pat rep fuel (rest.drop (pat.length - 1))
    else
      c :: replaceAllAux pat rep fuel rest

/-- Python `str.replace(pat, rep)` (replaces all occurrences; identity when
`pat` is empty is irrelevant here because the code only replaces `"_large"`). -/
def replaceAll (pat rep s : Str) : Str :=
  match pat with
  | [] => s
  | _ :: _ => replaceAllAux pat rep s.length s

/-- Does `pat` occur as a contiguous substring of `s`? -/
def isSubstr (pat : Str) : Str → Bool
  | [] => pat.isEmpty
  | c :: rest => pat.isPrefixOf (c :: rest) || isSubstr pat rest

/-- `Path.glob` with a pattern of the shape `*SFX` (e.g. `"*.png"`,
`"*_large.png"`): the name matches iff it ends with the literal suffix. -/
def globEnds (sfx s : Str) : Bool := sfx.isSuffixOf s

/-- `Path.glob` with a pattern of the shape `*MID*LAST` (e.g.
`"*main_logo*large.png"`): the name matches iff it can be split as
`A ++ MID ++ B ++ LAST`, i.e. it ends with `LAST` and `MID` occurs in the part
before that final `LAST`. -/
def globMidEnd (mid lastp s : Str) : Bool :=
  lastp.isSuffixOf s && isSubstr mid (s.take (s.length - lastp.length))

/-- Decimal rendering of a natural number, as used by Python f-strings. -/
def natStr (n : Nat) : Str := (Nat.repr n).toList

/-- One candidate logo bounding box, as produced by
`LogoExtractor.detect_logo_regions` (a dict with keys x, y, width, height,
type). -/
structure Region where
  x : Nat
  y : Nat
  width : Nat
  height : Nat
  type : Str
deriving DecidableEq

/-- One entry of the `logo_regions` list: a page name with its region list. -/
structure PageRegions where
  page : Str
  regions : List Region
deriving DecidableEq

/-- The fixed placeholder regions hard-coded in
`detect_logo_regions` (src/extract_logos.py lines 83-84). -/
def placeholderRegions : List Region :=
  [{ x := 100, y := 100, width := 300, height := 100, type := strL "main_logo" },
   { x := 200, y := 300, width := 150, height := 150, type := strL "icon" }]

/-- `LogoExtractor.detect_logo_regions`: for every `*.png` file in the pages
directory, emit the fixed placeholder regions.  Page dimensions are never
consulted. -/
def detect_logo_regions (pages : List Str) : List PageRegions :=
  (pages.filter (fun n => globEnds (strL ".png") n)).map
    (fun p => { page := p, regions := placeholderRegions })

/-- Outcome of invoking one rasterization strategy: it either returns normally
with a boolean (zero/non-zero exit status) or raises an exception. -/
inductive StrategyOutcome where
  | ok (b : Bool)
  | raises
deriving DecidableEq

/-- `LogoExtractor.extract_pdf_pages`: try each strategy in order; return
`true` at the first strategy that returns `True`; a raised exception is caught
and the next strategy is tried; return `false` when the list is exhausted. -/
def extract_pdf_pages : List StrategyOutcome → Bool
  | [] => false
  | .ok true :: _ => true
  | .ok false :: rest => extract_pdf_pages rest
  | .raises :: rest => extract_pdf_pages rest

/-- How many strategies `extract_pdf_pages` actually invokes on this list. -/
def invokedCount : List StrategyOutcome → Nat
  | [] => 0
  | .ok true :: _ => 1
  | .ok false :: rest => invokedCount rest + 1
  | .raises :: rest => invokedCount rest + 1

/-- The output filesystem state: the four directories the pipeline writes into,
each a list of filenames in listing order. -/
structure FS where
  pages : List Str
  processed : List Str
  final : List Str
  images : List Str
deriving DecidableEq

/-- Writing a file into a directory: an existing name is overwritten in place
(the listing is unchanged), a new name is appended. -/
def writeFile (dir : List Str) (name : Str) : List Str :=
  if name ∈ dir then dir else dir ++ [name]

/-- Run one external operation per target name: if the oracle reports success
the output file is written, otherwise the item is skipped (logged and ignored
by the code) and the loop continues with the remaining items. -/
def runOps (o : Str → Bool) (targets : List Str) (dir : List Str) : List Str :=
  targets.foldl (fun acc out => if o out = true then writeFile acc out else acc) dir

/-- The crop output filename
`f"{page_data['page']}_logo_{i}_{region['type']}.png"`. -/
def cropName (page : Str) (i : Nat) (ty : Str) : Str :=
  page ++ strL "_logo_" ++ natStr i ++ strL "_" ++ ty ++ strL ".png"

/-- The crop output names attempted by `crop_logos`, in loop order
(pages outer, enumerated regions inner). -/
def cropTargets (lrs : List PageRegions) : List Str :=
  lrs.flatMap (fun pd => (pd.regions.enum).map (fun ir => cropName pd.page ir.1 ir.2.type))

/-- `LogoExtractor.crop_logos`: one `sips -c` invocation per region; a failed
crop is logged and skipped, a successful one writes its output file into the
processed directory. -/
def crop_logos (o : Str → Bool) (lrs : List PageRegions) (dirp : List Str) : List Str :=
  runOps o (cropTargets lrs) dirp

/-- The fixed resize table `[(1000, "large"), (500, "medium"), (200, "small")]`. -/
def sizes : List (Nat × Str) :=
  [(1000, strL "large"), (500, strL "medium"), (200, strL "small")]

/-- The resized output filename `f"{logo_file.stem}_{suffix}.png"`. -/
def resizedName (f : Str) (label : Str) : Str :=
  stem f ++ strL "_" ++ label ++ strL ".png"

/-- The resize output names attempted by `optimize_logos`, in loop order:
every `*.png` file of the processed directory times the three sizes. -/
def resizeTargets (dirp : List Str) : List Str :=
  (dirp.filter (fun n => globEnds (strL ".png") n)).flatMap
    (fun f => sizes.map (fun sz => resizedName f sz.2))

/-- `LogoExtractor.optimize_logos`: one `sips -Z` invocation per
(processed file, size) pair; failures are logged and skipped. -/
def optimize_logos (o : Str → Bool) (dirp dirf : List Str) : List Str :=
  runOps o (resizeTargets dirp) dirf

/-- The inverted output filename
`f"{logo_file.stem.replace('_large', '')}_white_large.png"`. -/
def whiteName (f : Str) : Str :=
  replaceAll (strL "_large") [] (stem f) ++ strL "_white_large.png"

/-- The invert output names attempted by `create_white_versions`: one per
`*_large.png` file of the final directory (snapshot at call time). -/
def whiteTargets (dirf : List Str) : List Str :=
  (dirf.filter (fun n => globEnds (strL "_large.png") n)).map whiteName

/-- `LogoExtractor.create_white_versions`: one `sips -i` invocation per
`*_large.png` file already in the final directory; failures are logged and
skipped. -/
def create_white_versions (o : Str → Bool) (dirf : List Str) : List Str :=
  runOps o (whiteTargets dirf) dirf

/-- `LogoExtractor.generate_web_assets`: for each role pattern, if any final
file matches, copy the first match to the fixed canonical name under
`images/`. -/
def generate_web_assets (dirf imgs : List Str) : List Str :=
  let i1 := if dirf.filter (fun n => globMidEnd (strL "main_logo") (strL "large.png") n) = []
            then imgs else writeFile imgs (strL "client-logo.png")
  let i2 := if dirf.filter (fun n => globMidEnd (strL "white") (strL "large.png") n) = []
            then i1 else writeFile i1 (strL "client-logo-white.png")
  if dirf.filter (fun n => globMidEnd (strL "icon") (strL "large.png") n) = []
  then i2 else writeFile i2 (strL "client-icon.png")

/-- Success oracles for the three kinds of per-file external operations. -/
structure Oracles where
  cropOk : Str → Bool
  resizeOk : Str → Bool
  invertOk : Str → Bool

/-- The all-success oracle assignment. -/
def allOk : Oracles := ⟨fun _ => true, fun _ => true, fun _ => true⟩

/-- `LogoExtractor.run_extraction`: abort (returning `False`) when the source
document does not exist or every rasterization strategy fails; otherwise run
the stages in order.  `rasterPages` is the set of page files the successful
external rasterizer deposits in the pages directory. -/
def run_extraction (pdfExists : Bool) (methods : List StrategyOutcome)
    (rasterPages : List Str) (o : Oracles) (fs : FS) : Bool × FS :=
  if pdfExists = false then (false, fs)
  else if extract_pdf_pages methods = false then (false, fs)
  else
    let fs1 : FS := { fs with pages := rasterPages.foldl writeFile fs.pages }
    let lrs := detect_logo_regions fs1.pages
    let fs2 : FS := { fs1 with processed := crop_logos o.cropOk lrs fs1.processed }
    let fs3 : FS := { fs2 with final := optimize_logos o.resizeOk fs2.processed fs2.final }
    let fs4 : FS := { fs3 with final := create_white_versions o.invertOk fs3.final }
    (true, { fs4 with images := generate_web_assets fs4.final fs4.images })

/-- The directories `LogoExtractor.__init__` creates unconditionally with
`mkdir(parents=True, exist_ok=True)` before any stage runs. -/
def outputDirs : List Str :=
  [strL "assets/logos/pages", strL "assets/logos/processed", strL "assets/logos/final"]

/-- The directory-creation side effect of constructing a `LogoExtractor`:
the three output directories are added to the filesystem (creating an existing
directory is a no-op). -/
def logoExtractorInit (dirs : List Str) : List Str :=
  runOps (fun _ => true) outputDirs dirs

/-- The empty output filesystem. -/
def fs0 : FS := ⟨[], [], [], []⟩

/-- End-to-end scenario A input: one run on a document whose rasterization
succeeds with a single page `page_1.png`, every per-file operation
succeeding. -/
def run1 : FS :=
  (run_extraction true [StrategyOutcome.ok true] [strL "page_1.png"] allOk fs0).2

/-- A second, identical run on top of the first run's output tree. -/
def run2 : FS :=
  (run_extraction true [StrategyOutcome.ok true] [strL "page_1.png"] allOk run1).2

/-- The white-variant naming rule as the specification words it (the one
definition here translated from the spec rather than the source, for
comparison with `whiteName`): strip the `"_large"` size suffix from the large
variant's stem, insert the `"_white"` marker, then re-append `"_large"` and
the extension. -/
def specWhiteName (f : Str) : Str :=
  (if (strL "_large").isSuffixOf (stem f)
   then (stem f).take ((stem f).length - (strL "_large").length)
   else stem f) ++ strL "_white" ++ strL "_large" ++ strL ".png"

/-- The data-model invariant for a `LogoRegion` on a page of pixel dimensions
`pw × ph`: strictly positive extent, rectangle inside the page bounds. -/
def regionWithin (r : Region) (pw ph : Nat) : Prop :=
  0 < r.width ∧ 0 < r.height ∧ r.x + r.width ≤ pw ∧ r.y + r.height ≤ ph

/-- Modelled from the spec: the external resize tool (`sips -Z size`, invoked
at src/extract_logos.py line 129) is not repository code; per the spec's §4.3
and §6 contract it fits the image inside a `size × size` box preserving the
aspect ratio, the off-axis dimension rounded to the nearest pixel. -/
def sipsResize (w h s : Nat) : Nat × Nat :=
  if h ≤ w then (s, (h * s + w / 2) / w) else ((w * s + h / 2) / h, s)

/-- One RGBA pixel, channels as naturals bounded by 255. -/
structure Pixel where
  r : Nat
  g : Nat
  b : Nat
  a : Nat
deriving DecidableEq

/-- Modelled from the spec: per-pixel channel inversion
(R,G,B → 255−R,255−G,255−B; alpha preserved), the algorithm the spec fixes for
the external invert tool (`sips -i`, src/extract_logos.py line 145). -/
def invertPixel (p : Pixel) : Pixel :=
  { r := 255 - p.r, g := 255 - p.g, b := 255 - p.b, a := p.a }

/-- A raster image: pixel dimensions plus the pixel grid. -/
structure Image where
  width : Nat
  height : Nat
  px : Nat → Nat → Pixel

/-- Modelled from the spec: the external invert tool applies `invertPixel` at
every coordinate and leaves the dimensions unchanged. -/
def sipsInvert (img : Image) : Image :=
  { img with px := fun x y => invertPixel (img.px x y) }

/-- A concrete 1×1 image used to witness the inversion round-trip. -/
def imgW : Image := ⟨1, 1, fun _ _ => ⟨10, 20, 30, 40⟩⟩

/-- The HTML files `HardFeelingsLogoReplacer` is configured to rewrite. -/
def html_files : List Str :=
  [strL "index.html", strL "menu.html", strL "about-us.html", strL "401.html",
   strL "404.html", strL "detail_thali-menu.html", strL "detail_upcoming-events.html",
   strL "reference/changelog.html", strL "reference/dls.html", strL "reference/license.html"]

/-- The configured source logo files, in dict insertion order (main, white). -/
def source_logos : List (Str × Str) :=
  [(strL "main", strL "assets/logos/icons/Hard Feelings Tacos Logo (1).png"),
   (strL "white", strL "assets/logos/icons/Hard Feelings Tacos Logo (2).png")]

/-- The configured target locations per logo type. -/
def target_logos (t : Str) : Str :=
  if t = strL "main" then strL "images/hard-feelings-logo.png"
  else strL "images/hard-feelings-logo-white.png"

/-- Loop body of `copy_logo_files`: copy each source in order; on the first
missing source, report the error and return `False` immediately. -/
def copyLoop (ex : Str → Bool) : List (Str × Str) → List (Str × Str) → Bool × List (Str × Str)
  | [], acc => (true, acc)
  | (t, src) :: rest, acc =>
    if ex src = true then copyLoop ex rest (acc ++ [(src, target_logos t)])
    else (false, acc)

/-- `HardFeelingsLogoReplacer.copy_logo_files`: returns whether all sources were
present, together with the copies performed before any failure. -/
def copy_logo_files (ex : Str → Bool) : Bool × List (Str × Str) :=
  copyLoop ex source_logos []

/-- The files a run opened for reading and the files it wrote back. -/
structure FileTrace where
  readFiles : List Str
  wroteFiles : List Str
deriving DecidableEq

/-- The empty trace. -/
def emptyTrace : FileTrace := ⟨[], []⟩

/-- `HardFeelingsLogoReplacer.replace_logos_in_file`: a missing file is skipped
unread; otherwise the file is read and written back only when the string
replacements changed its content (abstracted by the `changed` oracle).
Returns whether the file was updated. -/
def replace_logos_in_file (ex changed : Str → Bool) (f : Str) (tr : FileTrace) :
    Bool × FileTrace :=
  if ex f = false then (false, tr)
  else if changed f = true then
    (true, ⟨tr.readFiles ++ [f], tr.wroteFiles ++ [f]⟩)
  else (false, ⟨tr.readFiles ++ [f], tr.wroteFiles⟩)

/-- The stylesheet `update_css_styles` touches. -/
def css_file : Str := strL "css/hard-feelings-tacos.webflow.css"

/-- `HardFeelingsLogoReplacer.update_css_styles`: a missing stylesheet is
skipped; an existing one is read and always written back. -/
def update_css_styles (ex : Str → Bool) (tr : FileTrace) : FileTrace :=
  if ex css_file = false then tr
  else ⟨tr.readFiles ++ [css_file], tr.wroteFiles ++ [css_file]⟩

/-- The observable outcome of `replace_all_logos`. -/
structure ReplaceOutcome where
  ok : Bool
  copies : List (Str × Str)
  trace : FileTrace
deriving DecidableEq

/-- `HardFeelingsLogoReplacer.replace_all_logos`: copy the logo files first and
return `False` at once if that fails; otherwise rewrite every configured HTML
file, update the CSS, and return whether any HTML file changed. -/
def replace_all_logos (ex changed : Str → Bool) : ReplaceOutcome :=
  let c := copy_logo_files ex
  if c.1 = false then { ok := false, copies := c.2, trace := emptyTrace }
  else
    let r := html_files.foldl
      (fun (p : Nat × FileTrace) f =>
        let s := replace_logos_in_file ex changed f p.2
        (if s.1 = true then p.1 + 1 else p.1, s.2)) (0, emptyTrace)
    let tr2 := update_css_styles ex r.2
    { ok := decide (0 < r.1), copies := c.2, trace := tr2 }

/-- `regionWithin` is a decidable predicate. -/
instance (r : Region) (pw ph : Nat) : Decidable (regionWithin r pw ph) := by
  unfold regionWithin; infer_instance

theorem mem_writeFile {dir : List Str} {n x : Str} :
    x ∈ writeFile dir n ↔ x ∈ dir ∨ x = n := by
  unfold writeFile
  by_cases h : n ∈ dir
  · rw [if_pos h]
    constructor
    · exact Or.inl
    · rintro (hx | rfl)
      · exact hx
      · exact h
  · rw [if_neg h]
    simp [List.mem_append]

theorem mem_runOps (o : Str → Bool) (ts : List Str) (dir : List Str) (x : Str) :
    x ∈ runOps o ts dir ↔ x ∈ dir ∨ (o x = true ∧ x ∈ ts) := by
  induction ts generalizing dir with
  | nil => simp [runOps]
  | cons t ts ih =>
    have hstep : runOps o (t :: ts) dir
        = runOps o ts (if o t = true then writeFile dir t else dir) := rfl
    rw [hstep, ih]
    by_cases ht : o t = true
    · rw [if_pos ht, mem_writeFile]
      constructor
      · rintro ((hx | rfl) | ⟨hox, hts⟩)
        · exact Or.inl hx
        · exact Or.inr ⟨ht, List.mem_cons_self _ _⟩
        · exact Or.inr ⟨hox, List.mem_cons_of_mem _ hts⟩
      · rintro (hx | ⟨hox, hmem⟩)
        · exact Or.inl (Or.inl hx)
        · rcases List.mem_cons.mp hmem with rfl | hts
          · exact Or.inl (Or.inr rfl)
          · exact Or.inr ⟨hox, hts⟩
    · rw [if_neg ht]
      constructor
      · rintro (hx | ⟨hox, hts⟩)
        · exact Or.inl hx
        · exact Or.inr ⟨hox, List.mem_cons_of_mem _ hts⟩
      · rintro (hx | ⟨hox, hmem⟩)
        · exact Or.inl hx
        · rcases List.mem_cons.mp hmem with rfl | hts
          · exact (ht hox).elim
          · exact Or.inr ⟨hox, hts⟩

theorem invertPixel_involution (p : Pixel) (h1 : p.r ≤ 255) (h2 : p.g ≤ 255)
    (h3 : p.b ≤ 255) : invertPixel (invertPixel p) = p := by
  cases p with
  | mk pr pg pb pa =>
    simp only [invertPixel, Pixel.mk.injEq]
    simp only at h1 h2 h3
    refine ⟨?_, ?_, ?_, True.intro⟩ <;> omega

/-- Claim C4: rasterization strategies are tried strictly in order with
first-success-wins: `extract_pdf_pages` succeeds iff some strategy returns a
zero exit status; once strategy `i` returns success at most `i + 1` strategies
have been invoked (so no later strategy runs); and a raising strategy is
caught, counted, and the remaining list is tried unchanged. -/
theorem strategies_first_success (ms : List StrategyOutcome) :
    (extract_pdf_pages ms = true ↔ StrategyOutcome.ok true ∈ ms)
    ∧ (∀ i, ms[i]? = some (StrategyOutcome.ok true) → invokedCount ms ≤ i + 1)
    ∧ extract_pdf_pages (StrategyOutcome.raises :: ms) = extract_pdf_pages ms
    ∧ invokedCount (StrategyOutcome.raises :: ms) = invokedCount ms + 1 := by
  refine ⟨?_, ?_, rfl, rfl⟩
  · induction ms with
    | nil => simp [extract_pdf_pages]
    | cons a rest ih =>
      cases a with
      | ok b =>
        cases b with
        | false => simp [extract_pdf_pages, ih]
        | true => simp [extract_pdf_pages]
      | raises => simp [extract_pdf_pages, ih]
  · intro i hi
    induction ms generalizing i with
    | nil => simp at hi
    | cons a rest ih =>
      cases i with
      | zero =>
        simp at hi
        subst hi
        simp [invokedCount]
      | succ k =>
        simp at hi
        cases a with
        | ok b =>
          cases b with
          | false =>
            have := ih k hi
            simp [invokedCount]
            omega
          | true =>
            simp [invokedCount]
        | raises =>
          have := ih k hi
          simp [invokedCount]
          omega

/-- Witness for claim C4 at a concrete strategy list (the second strategy is
the first success, so at most two strategies are invoked). -/
theorem strategies_first_success_witness :
    (extract_pdf_pages [StrategyOutcome.ok false, StrategyOutcome.ok true, StrategyOutcome.ok false] = true
      ↔ StrategyOutcome.ok true
          ∈ [StrategyOutcome.ok false, StrategyOutcome.ok true, StrategyOutcome.ok false])
    ∧ invokedCount [StrategyOutcome.ok false, StrategyOutcome.ok true, StrategyOutcome.ok false] ≤ 2 := by
  have h := strategies_first_success
    [StrategyOutcome.ok false, StrategyOutcome.ok true, StrategyOutcome.ok false]
  exact ⟨h.1, h.2.1 1 rfl⟩

/-- Claim C1 (the code violates it): re-running the full pipeline on the same
single-page input is not idempotent.  The second run's `create_white_versions`
matches the first run's `*_white_large.png` outputs with the `*_large.png`
glob and creates brand-new `*_white_white_large.png` files, so the final
directory accumulates white suffixes instead of being byte-identical. -/
theorem rerun_accumulates_white_suffixes :
    strL "page_1.png_logo_0_main_logo_white_white_large.png" ∈ run2.final
    ∧ strL "page_1.png_logo_0_main_logo_white_white_large.png" ∉ run1.final := by
  decide

/-- Claim C2 is false as stated: in scenario A (one page, one `main_logo`
region, one `icon` region, all operations succeeding) the final tree holds 8
files — 6 resized plus 2 inverted, one per region — not 6 + 1. -/
theorem scenario_a_counterexample : ¬ (run1.final.length = 6 + 1) := by decide

/-- Claim C2 as amended: scenario A produces exactly the 6 resized files plus
2 inverted files (one per region's large variant), and `images/` receives the
main-logo, white-logo and icon assets (the white asset is present because each
large variant produced an inverted counterpart). -/
theorem scenario_a_amended :
    run1.final =
      [strL "page_1.png_logo_0_main_logo_large.png",
       strL "page_1.png_logo_0_main_logo_medium.png",
       strL "page_1.png_logo_0_main_logo_small.png",
       strL "page_1.png_logo_1_icon_large.png",
       strL "page_1.png_logo_1_icon_medium.png",
       strL "page_1.png_logo_1_icon_small.png",
       strL "page_1.png_logo_0_main_logo_white_large.png",
       strL "page_1.png_logo_1_icon_white_large.png"]
    ∧ run1.images
      = [strL "client-logo.png", strL "client-logo-white.png", strL "client-icon.png"] := by
  decide

/-- Claim C3 as amended: when the source document is missing the run aborts at
once with a `False` status and writes no file into any directory (the
filesystem state is returned untouched) — but the constructor has already
created the empty `pages`/`processed`/`final` directory skeleton, so an empty
output tree does exist. -/
theorem missing_document_aborts (ms : List StrategyOutcome) (rp : List Str)
    (o : Oracles) (fs : FS) :
    run_extraction false ms rp o fs = (false, fs)
    ∧ ∀ dirs, ∀ d ∈ outputDirs, d ∈ logoExtractorInit dirs := by
  constructor
  · rfl
  · intro dirs d hd
    have h := (mem_runOps (fun _ => true) outputDirs dirs d).2 (Or.inr ⟨rfl, hd⟩)
    simpa [logoExtractorInit] using h

/-- Witness for claim C3's amended statement at a concrete input. -/
theorem missing_document_aborts_witness :
    run_extraction false [] [] allOk fs0 = (false, fs0)
    ∧ strL "assets/logos/pages" ∈ logoExtractorInit [] := by
  have h := missing_document_aborts [] [] allOk fs0
  exact ⟨h.1, h.2 [] (strL "assets/logos/pages") (by decide)⟩

/-- Claim C3 is false as stated ("no partial output tree is produced"): the
aborted run indeed writes zero files, but constructing the extractor over an
empty filesystem has already created the output directory skeleton. -/
theorem missing_document_counterexample :
    (run_extraction false [] [] allOk fs0).2 = fs0 ∧ logoExtractorInit [] ≠ [] := by
  decide

/-- Claim C6 as amended: every region emitted by the locator has strictly
positive width and height, but the locator returns the same fixed rectangles
for every page without consulting page dimensions, so the containment half of
the invariant holds exactly when the page is at least 400 pixels wide and 450
pixels tall. -/
theorem locator_invariant_amended (pages : List Str) (pw ph : Nat) :
    (∀ pr ∈ detect_logo_regions pages, pr.regions = placeholderRegions)
    ∧ ((∀ r ∈ placeholderRegions, regionWithin r pw ph) ↔ 400 ≤ pw ∧ 450 ≤ ph)
    ∧ (∀ r ∈ placeholderRegions, 0 < r.width ∧ 0 < r.height) := by
  refine ⟨?_, ?_, by decide⟩
  · intro pr hpr
    simp only [detect_logo_regions, List.mem_map] at hpr
    obtain ⟨p, _, rfl⟩ := hpr
    rfl
  · simp [placeholderRegions, regionWithin]
    omega

/-- Claim C6 is false as stated: on a 300 × 300 page the locator still reports
its fixed regions, and the icon region (y 300, height 150) exceeds the page
bounds. -/
theorem locator_invariant_counterexample :
    ∃ pr ∈ detect_logo_regions [strL "p.png"], ∃ r ∈ pr.regions,
      ¬ regionWithin r 300 300 := by
  decide

/-- Claim C7 (spec-modelled): every resized variant preserves the source
crop's aspect ratio within one pixel of rounding tolerance (the cross products
of the output and source dimensions differ by at most the longer source side),
and the inverted variant has pixel dimensions identical to its source. -/
theorem variant_geometry (w h s : Nat) (hw : 0 < w) (hh : 0 < h) (_hs : 0 < s) :
    ((sipsResize w h s).1 * h ≤ (sipsResize w h s).2 * w + max w h
      ∧ (sipsResize w h s).2 * w ≤ (sipsResize w h s).1 * h + max w h)
    ∧ ∀ img : Image,
        (sipsInvert img).width = img.width ∧ (sipsInvert img).height = img.height := by
  refine ⟨?_, fun img => ⟨rfl, rfl⟩⟩
  unfold sipsResize
  by_cases hc : h ≤ w
  · rw [if_pos hc, Nat.max_eq_left hc]
    dsimp only
    have h1 := Nat.div_add_mod (h * s + w / 2) w
    have h2 : (h * s + w / 2) % w < w := Nat.mod_lt _ hw
    have h3 : w / 2 ≤ w := Nat.div_le_self w 2
    rw [Nat.mul_comm s h, Nat.mul_comm ((h * s + w / 2) / w) w]
    generalize hA : w * ((h * s + w / 2) / w) = A at h1 ⊢
    generalize hB : h * s = B at h1 h2 ⊢
    omega
  · have hwh : w ≤ h := Nat.le_of_lt (Nat.lt_of_not_le hc)
    rw [if_neg hc, Nat.max_eq_right hwh]
    dsimp only
    have h1 := Nat.div_add_mod (w * s + h / 2) h
    have h2 : (w * s + h / 2) % h < h := Nat.mod_lt _ hh
    have h3 : h / 2 ≤ h := Nat.div_le_self h 2
    rw [Nat.mul_comm ((w * s + h / 2) / h) h, Nat.mul_comm s w]
    generalize hA : h * ((w * s + h / 2) / h) = A at h1 ⊢
    generalize hB : w * s = B at h1 h2 ⊢
    omega

/-- Witness for claim C7 at a concrete 4 × 3 crop resized to target 1000. -/
theorem variant_geometry_witness :
    (sipsResize 4 3 1000).1 * 3 ≤ (sipsResize 4 3 1000).2 * 4 + max 4 3
    ∧ (sipsResize 4 3 1000).2 * 4 ≤ (sipsResize 4 3 1000).1 * 3 + max 4 3 :=
  (variant_geometry 4 3 1000 (by decide) (by decide) (by decide)).1

/-- Claim C9 (spec-modelled): channel inversion is an involution — applying
the per-pixel `255 − v` inversion twice restores every pixel of any image
whose channel values are bytes, and the dimensions are untouched. -/
theorem invert_involution (img : Image)
    (hb : ∀ x y, (img.px x y).r ≤ 255 ∧ (img.px x y).g ≤ 255 ∧ (img.px x y).b ≤ 255) :
    (sipsInvert (sipsInvert img)).width = img.width
    ∧ (sipsInvert (sipsInvert img)).height = img.height
    ∧ ∀ x y, (sipsInvert (sipsInvert img)).px x y = img.px x y := by
  refine ⟨rfl, rfl, fun x y => ?_⟩
  obtain ⟨h1, h2, h3⟩ := hb x y
  show invertPixel (invertPixel (img.px x y)) = img.px x y
  exact invertPixel_involution (img.px x y) h1 h2 h3

/-- Witness for claim C9 at a concrete 1 × 1 image. -/
theorem invert_involution_witness :
    (sipsInvert (sipsInvert imgW)).width = imgW.width
    ∧ (sipsInvert (sipsInvert imgW)).px 0 0 = imgW.px 0 0 := by
  have h := invert_involution imgW
    (fun x y => ⟨show (10 : Nat) ≤ 255 by decide, show (20 : Nat) ≤ 255 by decide,
      show (30 : Nat) ≤ 255 by decide⟩)
  exact ⟨h.1, h.2.2 0 0⟩

/-- Claim C8: per-item failures are isolated.  A file appears in a stage's
output directory iff it was already there or its own operation succeeded and
it was one of the stage's targets — so a failing crop/resize/invert is merely
skipped, every other item is still processed, and the run's overall success is
decided solely by the rasterization stage, never by per-item failures. -/
theorem per_item_failure_isolation (co ro wo : Str → Bool) :
    (∀ lrs dirp x, x ∈ crop_logos co lrs dirp
      ↔ x ∈ dirp ∨ (co x = true ∧ x ∈ cropTargets lrs))
    ∧ (∀ dirp dirf x, x ∈ optimize_logos ro dirp dirf
      ↔ x ∈ dirf ∨ (ro x = true ∧ x ∈ resizeTargets dirp))
    ∧ (∀ dirf x, x ∈ create_white_versions wo dirf
      ↔ x ∈ dirf ∨ (wo x = true ∧ x ∈ whiteTargets dirf))
    ∧ (∀ ms rp fs, (run_extraction true ms rp ⟨co, ro, wo⟩ fs).1 = extract_pdf_pages ms) := by
  refine ⟨fun lrs dirp x => mem_runOps _ _ _ _, fun dirp dirf x => mem_runOps _ _ _ _,
    fun dirf x => mem_runOps _ _ _ _, fun ms rp fs => ?_⟩
  by_cases hms : extract_pdf_pages ms = false
  · simp [run_extraction, hms]
  · have h : extract_pdf_pages ms = true := by
      revert hms
      cases extract_pdf_pages ms <;> simp
    simp [run_extraction, h]

/-- Witness for claim C8: a failing oracle only omits its own target, and the
run still reports overall success. -/
theorem per_item_failure_isolation_witness :
    strL "x.png" ∈ crop_logos (fun _ => false) [] [strL "x.png"]
    ∧ (run_extraction true [StrategyOutcome.ok true] []
        ⟨fun _ => false, fun _ => false, fun _ => false⟩ fs0).1 = true := by
  have h := per_item_failure_isolation (fun _ => false) (fun _ => false) (fun _ => false)
  refine ⟨(h.1 [] [strL "x.png"] (strL "x.png")).2 (Or.inl (by decide)), ?_⟩
  have h4 := h.2.2.2 [StrategyOutcome.ok true] [] fs0
  simpa using h4

theorem append_ne_nil_of_right (X t : Str) (ht : t ≠ []) : X ++ t ≠ [] := by
  intro h
  exact ht (List.append_eq_nil.mp h).2

theorem stem_append_png (X : Str) (hX : X ≠ []) : stem (X ++ strL ".png") = X := by
  obtain ⟨a, X', rfl⟩ := List.exists_cons_of_ne_nil hX
  have hcond : '.' ∈ ((a :: X') ++ strL ".png").drop 1 := by
    rw [List.cons_append, List.drop_one, List.tail_cons]
    exact List.mem_append_right _ (by decide)
  unfold stem
  rw [if_pos hcond, List.reverse_append]
  have h1 : (strL ".png").reverse = ['g', 'n', 'p', '.'] := rfl
  rw [h1, List.dropWhile_append]
  have h2 : List.dropWhile notDot ['g', 'n', 'p', '.'] = ['.'] := rfl
  rw [h2]
  simp

theorem isPrefixOf_append_of_length_le (p q r : Str) (h : p.length ≤ q.length) :
    p.isPrefixOf (q ++ r) = p.isPrefixOf q := by
  induction p generalizing q with
  | nil => simp [List.isPrefixOf]
  | cons a p ih =>
    cases q with
    | nil => simp at h
    | cons b q =>
      show (a == b && p.isPrefixOf (q ++ r)) = (a == b && p.isPrefixOf q)
      rw [ih q (by simp at h; omega)]

theorem isPrefixOf_append_self (p r : Str) : p.isPrefixOf (p ++ r) = true := by
  induction p with
  | nil => simp [List.isPrefixOf]
  | cons a p ih =>
    show (a == a && p.isPrefixOf (p ++ r)) = true
    simp [ih]

theorem isSuffixOf_append_self (t X : Str) : t.isSuffixOf (X ++ t) = true := by
  show t.reverse.isPrefixOf (X ++ t).reverse = true
  rw [List.reverse_append]
  exact isPrefixOf_append_self _ _

theorem isSuffixOf_append_eq (t u X : Str) (h : t.length ≤ u.length) :
    t.isSuffixOf (X ++ u) = t.reverse.isPrefixOf u.reverse := by
  show t.reverse.isPrefixOf (X ++ u).reverse = _
  rw [List.reverse_append]
  exact isPrefixOf_append_of_length_le _ _ _ (by simp [h])

theorem append_tail_ne (A B t₁ t₂ : Str)
    (h1 : t₁.reverse.isPrefixOf t₂.reverse = false)
    (h2 : t₂.reverse.isPrefixOf t₁.reverse = false) :
    A ++ t₁ ≠ B ++ t₂ := by
  intro heq
  have hrev : t₁.reverse ++ A.reverse = t₂.reverse ++ B.reverse := by
    rw [← List.reverse_append, ← List.reverse_append, heq]
  have p1 : t₁.reverse <+: t₂.reverse ++ B.reverse := by
    rw [← hrev]
    exact List.prefix_append _ _
  have p2 : t₂.reverse <+: t₂.reverse ++ B.reverse := List.prefix_append _ _
  rcases Nat.le_total t₁.reverse.length t₂.reverse.length with hle | hle
  · have hpre := List.prefix_of_prefix_length_le p1 p2 hle
    have hT := List.isPrefixOf_iff_prefix.mpr hpre
    rw [h1] at hT
    simp at hT
  · have hpre := List.prefix_of_prefix_length_le p2 p1 hle
    have hT := List.isPrefixOf_iff_prefix.mpr hpre
    rw [h2] at hT
    simp at hT

/-- Claim C5 as amended: for every logo region the locator can produce (role
`main_logo` or `icon`, arbitrary page name and index), deriving variants from
its successful crop yields exactly the `len(sizes) = 3` resized files — each
named by concatenating the crop's base name with the size label — plus exactly
one inverted file, whose name is obtained by deleting every occurrence of
`"_large"` from the large variant's stem (Python `str.replace`) and appending
`"_white_large.png"`; this coincides with the spec's strip-the-suffix rule
whenever `"_large"` occurs only as the size suffix. -/
theorem derive_variants_amended (page ty : Str) (i : Nat)
    (hty : ty = strL "main_logo" ∨ ty = strL "icon") :
    create_white_versions (fun _ => true)
        (optimize_logos (fun _ => true) [cropName page i ty] [])
      = [resizedName (cropName page i ty) (strL "large"),
         resizedName (cropName page i ty) (strL "medium"),
         resizedName (cropName page i ty) (strL "small"),
         whiteName (resizedName (cropName page i ty) (strL "large"))] := by
  set c := cropName page i ty with hc
  set X := page ++ strL "_logo_" ++ natStr i ++ strL "_" ++ ty with hX
  have htyne : ty ≠ [] := by
    rcases hty with h | h <;> subst h <;> decide
  have hXne : X ≠ [] := by
    rw [hX]
    exact append_ne_nil_of_right _ _ htyne
  have hcX : c = X ++ strL ".png" := rfl
  have hstem : stem c = X := by
    rw [hcX]
    exact stem_append_png X hXne
  have hL : resizedName c (strL "large") = X ++ strL "_large.png" := by
    show stem c ++ strL "_" ++ strL "large" ++ strL ".png" = X ++ strL "_large.png"
    rw [hstem, List.append_assoc, List.append_assoc]
    rfl
  have hM : resizedName c (strL "medium") = X ++ strL "_medium.png" := by
    show stem c ++ strL "_" ++ strL "medium" ++ strL ".png" = X ++ strL "_medium.png"
    rw [hstem, List.append_assoc, List.append_assoc]
    rfl
  have hS : resizedName c (strL "small") = X ++ strL "_small.png" := by
    show stem c ++ strL "_" ++ strL "small" ++ strL ".png" = X ++ strL "_small.png"
    rw [hstem, List.append_assoc, List.append_assoc]
    rfl
  have hML : resizedName c (strL "medium") ≠ resizedName c (strL "large") := by
    rw [hM, hL]
    exact append_tail_ne _ _ _ _ (by decide) (by decide)
  have hSL : resizedName c (strL "small") ≠ resizedName c (strL "large") := by
    rw [hS, hL]
    exact append_tail_ne _ _ _ _ (by decide) (by decide)
  have hSM : resizedName c (strL "small") ≠ resizedName c (strL "medium") := by
    rw [hS, hM]
    exact append_tail_ne _ _ _ _ (by decide) (by decide)
  have hfPng : globEnds (strL ".png") c = true := by
    show (strL ".png").isSuffixOf c = true
    rw [hcX]
    exact isSuffixOf_append_self _ _
  have htargets : resizeTargets [c]
      = [resizedName c (strL "large"), resizedName c (strL "medium"),
         resizedName c (strL "small")] := by
    simp [resizeTargets, sizes, hfPng]
  have hopt : optimize_logos (fun _ => true) [c] []
      = [resizedName c (strL "large"), resizedName c (strL "medium"),
         resizedName c (strL "small")] := by
    show runOps (fun _ => true) (resizeTargets [c]) [] = _
    rw [htargets]
    simp [runOps, writeFile, hML, hSL, hSM]
  have hgL : globEnds (strL "_large.png") (resizedName c (strL "large")) = true := by
    rw [hL]
    show (strL "_large.png").isSuffixOf (X ++ strL "_large.png") = true
    exact isSuffixOf_append_self _ _
  have hgM : globEnds (strL "_large.png") (resizedName c (strL "medium")) = false := by
    rw [hM]
    show (strL "_large.png").isSuffixOf (X ++ strL "_medium.png") = false
    rw [isSuffixOf_append_eq _ _ _ (by decide)]
    decide
  have hgS : globEnds (strL "_large.png") (resizedName c (strL "small")) = false := by
    rw [hS]
    show (strL "_large.png").isSuffixOf (X ++ strL "_small.png") = false
    rw [isSuffixOf_append_eq _ _ _ (by decide)]
    decide
  have hstemL : stem (resizedName c (strL "large")) = X ++ strL "_large" := by
    rw [hL]
    have hsplit : X ++ strL "_large.png" = (X ++ strL "_large") ++ strL ".png" := by
      rw [List.append_assoc X (strL "_large") (strL ".png")]
      rfl
    rw [hsplit]
    exact stem_append_png _ (append_ne_nil_of_right _ _ (by decide))
  have hWdef : whiteName (resizedName c (strL "large"))
      = replaceAll (strL "_large") [] (X ++ strL "_large") ++ strL "_white_large.png" := by
    show replaceAll (strL "_large") [] (stem (resizedName c (strL "large")))
        ++ strL "_white_large.png" = _
    rw [hstemL]
  have hWL : whiteName (resizedName c (strL "large")) ≠ resizedName c (strL "large") := by
    rw [hWdef, hL]
    intro heq
    have hsplit : replaceAll (strL "_large") [] (X ++ strL "_large") ++ strL "_white_large.png"
        = (replaceAll (strL "_large") [] (X ++ strL "_large") ++ strL "_white")
          ++ strL "_large.png" := by
      rw [List.append_assoc (replaceAll (strL "_large") [] (X ++ strL "_large"))
        (strL "_white") (strL "_large.png")]
      rfl
    rw [hsplit] at heq
    have hXeq := (List.append_left_inj _).mp heq
    rw [hX] at hXeq
    rcases hty with h | h
    · rw [h] at hXeq
      exact append_tail_ne _ _ (strL "_white") (strL "main_logo")
        (by decide) (by decide) hXeq
    · rw [h] at hXeq
      exact append_tail_ne _ _ (strL "_white") (strL "icon")
        (by decide) (by decide) hXeq
  have hWM : whiteName (resizedName c (strL "large")) ≠ resizedName c (strL "medium") := by
    rw [hWdef, hM]
    exact append_tail_ne _ _ _ _ (by decide) (by decide)
  have hWS : whiteName (resizedName c (strL "large")) ≠ resizedName c (strL "small") := by
    rw [hWdef, hS]
    exact append_tail_ne _ _ _ _ (by decide) (by decide)
  have hwt : whiteTargets
      [resizedName c (strL "large"), resizedName c (strL "medium"),
       resizedName c (strL "small")] = [whiteName (resizedName c (strL "large"))] := by
    simp [whiteTargets, hgL, hgM, hgS]
  show runOps (fun _ => true)
      (whiteTargets (optimize_logos (fun _ => true) [c] []))
      (optimize_logos (fun _ => true) [c] []) = _
  rw [hopt, hwt]
  simp [runOps, writeFile, hWL, hWM, hWS]

/-- Witness for claim C5's amended statement at a concrete crop. -/
theorem derive_variants_amended_witness :
    create_white_versions (fun _ => true)
        (optimize_logos (fun _ => true) [cropName (strL "page_1.png") 0 (strL "main_logo")] [])
      = [resizedName (cropName (strL "page_1.png") 0 (strL "main_logo")) (strL "large"),
         resizedName (cropName (strL "page_1.png") 0 (strL "main_logo")) (strL "medium"),
         resizedName (cropName (strL "page_1.png") 0 (strL "main_logo")) (strL "small"),
         whiteName (resizedName (cropName (strL "page_1.png") 0 (strL "main_logo")) (strL "large"))] :=
  derive_variants_amended (strL "page_1.png") (strL "main_logo") 0 (Or.inl rfl)

/-- Claim C5 is false as stated: the code strips every occurrence of
`"_large"` (Python `str.replace`), not just the size suffix.  For a page named
`a_large.png` the produced inverted file is
`a.png_logo_0_main_logo_white_large.png`, while the claim's
strip-the-size-suffix rule would name it
`a_large.png_logo_0_main_logo_white_large.png` — a file that is never
created. -/
theorem white_naming_counterexample :
    whiteName (resizedName (cropName (strL "a_large.png") 0 (strL "main_logo")) (strL "large"))
      ≠ specWhiteName (resizedName (cropName (strL "a_large.png") 0 (strL "main_logo")) (strL "large"))
    ∧ whiteName (resizedName (cropName (strL "a_large.png") 0 (strL "main_logo")) (strL "large"))
        ∈ create_white_versions (fun _ => true)
            (optimize_logos (fun _ => true) [cropName (strL "a_large.png") 0 (strL "main_logo")] [])
    ∧ specWhiteName (resizedName (cropName (strL "a_large.png") 0 (strL "main_logo")) (strL "large"))
        ∉ create_white_versions (fun _ => true)
            (optimize_logos (fun _ => true) [cropName (strL "a_large.png") 0 (strL "main_logo")] []) := by
  decide

/-- Claim C10: if any configured source logo is missing,
`replace_all_logos` returns `False` right after the copy step — no HTML file
and no CSS file is read or written in that run. -/
theorem replace_all_aborts_without_sources (ex changed : Str → Bool)
    (h : ex (strL "assets/logos/icons/Hard Feelings Tacos Logo (1).png") = false
       ∨ ex (strL "assets/logos/icons/Hard Feelings Tacos Logo (2).png") = false) :
    (replace_all_logos ex changed).ok = false
    ∧ (replace_all_logos ex changed).trace.readFiles = []
    ∧ (replace_all_logos ex changed).trace.wroteFiles = [] := by
  have hc : (copy_logo_files ex).1 = false := by
    rcases h with h1 | h2
    · simp [copy_logo_files, copyLoop, source_logos, h1]
    · by_cases h1 : ex (strL "assets/logos/icons/Hard Feelings Tacos Logo (1).png") = true
      · simp [copy_logo_files, copyLoop, source_logos, h1, h2]
      · simp [copy_logo_files, copyLoop, source_logos, h1]
  simp [replace_all_logos, hc, emptyTrace]

/-- Witness for claim C10 when no source file exists at all. -/
theorem replace_all_aborts_witness :
    (replace_all_logos (fun _ => false) (fun _ => false)).ok = false
    ∧ (replace_all_logos (fun _ => false) (fun _ => false)).trace.readFiles = []
    ∧ (replace_all_logos (fun _ => false) (fun _ => false)).trace.wroteFiles = [] :=
  replace_all_aborts_without_sources (fun _ => false) (fun _ => false) (Or.inl rfl)
